import Mathlib

/-!
Shallow embedding of the theia-update-plugins core (src/lib.rs, src/main.rs).

JSON documents are modelled by an inductive value type mirroring
serde_json::Value as far as the code observes it; the HTTP, XML and zip
libraries are modelled at the capability interface the code uses
(GET outcome, stream of tag events, sequence of archive entries).
-/

/-- JSON values as observed by the resolver (serde_json::Value). -/
inductive Json where
  | null
  | bool (b : Bool)
  | num (n : Int)
  | str (s : String)
  | arr (xs : List Json)
  | obj (fields : List (String × Json))

/-- Key lookup in an object field list (serde_json Map::get via Value::get
with a string index: objects only, anything else gives None). -/
def Json.lookupField : List (String × Json) → String → Option Json
  | [], _ => none
  | (n, v) :: rest, k => if n = k then some v else Json.lookupField rest k

/-- Value::get with a string index. -/
def Json.getKey : Json → String → Option Json
  | Json.obj fields, k => Json.lookupField fields k
  | _, _ => none

/-- Value::get with a numeric index (arrays only). -/
def Json.getIdx : Json → Nat → Option Json
  | Json.arr xs, i => xs.get? i
  | _, _ => none

/-- Value::is_array. -/
def Json.isArray : Json → Bool
  | Json.arr _ => true
  | _ => false

/-- Value::as_str. -/
def Json.asStr : Json → Option String
  | Json.str s => some s
  | _ => none

/-- TheiaPluginAPI::search_version (src/lib.rs lines 83-92): walk the
descriptor keys with a mutable cursor; each step does get(item)?, then if the
result is an array also get(0)?; finally as_str. The Rust for-loop with early
return is the Option-valued fold. -/
def TheiaPluginAPI.search_version (keys : List String) (json : Json) : Option String :=
  (List.foldlM
    (fun v item => (Json.getKey v item).bind
      fun w => if w.isArray then w.getIdx 0 else some w)
    json keys).bind Json.asStr

/-- TheiaPluginAPI::search_download (src/lib.rs lines 93-102): textually the
same walk as search_version, duplicated in the source. -/
def TheiaPluginAPI.search_download (keys : List String) (json : Json) : Option String :=
  (List.foldlM
    (fun v item => (Json.getKey v item).bind
      fun w => if w.isArray then w.getIdx 0 else some w)
    json keys).bind Json.asStr

/-- The walk of the json path, written as a structural recursion: apply the
key, then descend into element 0 when the result is an array (also after the
final key), and require a string at the end. -/
def resolvePath : List String → Json → Option String
  | [], j => j.asStr
  | k :: ks, j =>
    ((Json.getKey j k).bind fun w => if w.isArray then w.getIdx 0 else some w).bind
      (resolvePath ks)

/-- The walk exactly as the claim words it: at each step, if the current node
is an array, descend into element 0 BEFORE applying the key (an empty array
fails); the resolved node must be a string. -/
def claimWalk : List String → Json → Option String
  | [], j => j.asStr
  | k :: ks, j =>
    ((match j with
      | Json.arr xs => xs.get? 0
      | _ => some j).bind
      fun c => Json.getKey c k).bind (claimWalk ks)

theorem search_version_cons (k : String) (ks : List String) (j : Json) :
    TheiaPluginAPI.search_version (k :: ks) j =
      ((Json.getKey j k).bind fun w => if w.isArray then w.getIdx 0 else some w).bind
        (fun v => TheiaPluginAPI.search_version ks v) := by
  unfold TheiaPluginAPI.search_version
  show (((Json.getKey j k).bind fun w => if w.isArray then w.getIdx 0 else some w).bind
    (fun v => List.foldlM _ v ks)).bind Json.asStr = _
  cases (Json.getKey j k).bind fun w => if w.isArray then w.getIdx 0 else some w with
  | none => rfl
  | some v => rfl

theorem search_version_eq_resolvePath (keys : List String) :
    ∀ j : Json, TheiaPluginAPI.search_version keys j = resolvePath keys j := by
  induction keys with
  | nil => intro j; rfl
  | cons k ks ih =>
    intro j
    rw [search_version_cons]
    unfold resolvePath
    cases (Json.getKey j k).bind fun w => if w.isArray then w.getIdx 0 else some w with
    | none => rfl
    | some v => exact ih v

/-- C1 counterexample: on the document [ {"a": "X"} ] with descriptor ["a"],
the walk the claim describes (descend into element 0 of an array before
applying the key) resolves to "X", but the code's walk fails, because the code
only descends after a key has been applied and a string-keyed get on an array
yields nothing. -/
theorem c1_counterexample :
    claimWalk ["a"] (Json.arr [Json.obj [("a", Json.str "X")]]) = some "X"
    ∧ TheiaPluginAPI.search_version ["a"] (Json.arr [Json.obj [("a", Json.str "X")]]) = none := by
  exact ⟨rfl, rfl⟩

/-- C1 (amended): the walk applies the keys in order; after each key is
applied, if the resulting node is an array the walk descends into element 0
(so a root-level array is not descended into, and a descent does occur after
the final key); absence of a key or an empty array makes the walk fail.
The document with assets list resolves to "X" under descriptor
["assets", "url"]. -/
theorem c1_path_resolution :
    (∀ (keys : List String) (j : Json),
      TheiaPluginAPI.search_version keys j = resolvePath keys j)
    ∧ TheiaPluginAPI.search_version ["assets", "url"]
        (Json.obj [("assets", Json.arr [Json.obj [("url", Json.str "X")]])]) = some "X" := by
  exact ⟨fun keys j => search_version_eq_resolvePath keys j, rfl⟩

/-- C9: the version walk and the download walk are the same traversal: with
the same descriptor and document both return identical results. -/
theorem c9_same_traversal :
    ∀ (keys : List String) (j : Json),
      TheiaPluginAPI.search_version keys j = TheiaPluginAPI.search_download keys j := by
  intro keys j; rfl

/-- Version (src/lib.rs lines 191-196): a (major, minor, patch) triple of
unsigned integers (u32 values modelled as Nat with an explicit range check in
parsing). -/
structure Version where
  major : Nat
  minor : Nat
  patch : Nat
deriving DecidableEq

/-- str::split with separator dot: the list of components. An empty input has
one empty component, as in Rust. -/
def splitDot : List Char → List (List Char)
  | [] => [[]]
  | c :: cs =>
    if c = '.' then [] :: splitDot cs
    else
      match splitDot cs with
      | [] => [[c]]
      | h :: t => (c :: h) :: t

/-- The decimal value of a digit list. -/
def digitsVal (ds : List Char) : Nat :=
  ds.foldl (fun a c => a * 10 + (c.toNat - 48)) 0

/-- u32::from_str: an optional leading plus sign, then a nonempty run of
ASCII digits whose value fits in 32 bits; anything else is a parse error. -/
def parseU32 (cs : List Char) : Option Nat :=
  let ds := match cs with
    | '+' :: rest => rest
    | _ => cs
  if ds.isEmpty then none
  else if ds.all Char.isDigit then
    if digitsVal ds < 4294967296 then some (digitsVal ds) else none
  else none

/-- Version::from_str (src/lib.rs lines 202-216) over the character list:
split on dots; with fewer than three components the result is (0,0,0);
otherwise the major component is filtered to its ASCII digits (all non-digit
characters removed) and the three fields are integer-parsed, any parse
failure failing the whole parse. Components beyond the third are ignored. -/
def Version.from_str_chars (cs : List Char) : Option Version :=
  match splitDot cs with
  | major :: minor :: patch :: _ =>
    match parseU32 (major.filter Char.isDigit), parseU32 minor, parseU32 patch with
    | some a, some b, some c => some ⟨a, b, c⟩
    | _, _, _ => none
  | _ => some ⟨0, 0, 0⟩

/-- Version::from_str on a string. -/
def Version.from_str (s : String) : Option Version :=
  Version.from_str_chars s.data

/-- The parser exactly as the claim words it: only the LEADING non-digit
characters of the major component are stripped before parsing. -/
def claimParse (cs : List Char) : Option Version :=
  match splitDot cs with
  | major :: minor :: patch :: _ =>
    match parseU32 (major.dropWhile fun c => !c.isDigit), parseU32 minor, parseU32 patch with
    | some a, some b, some c => some ⟨a, b, c⟩
    | _, _, _ => none
  | _ => some ⟨0, 0, 0⟩

theorem splitDot_ne_nil (cs : List Char) : splitDot cs ≠ [] := by
  cases cs with
  | nil => simp [splitDot]
  | cons c cs =>
    unfold splitDot
    by_cases h : c = '.'
    · simp [h]
    · simp only [h, if_false]
      cases splitDot cs <;> simp

theorem splitDot_no_dot (cs : List Char) (h : '.' ∉ cs) : splitDot cs = [cs] := by
  induction cs with
  | nil => rfl
  | cons c cs ih =>
    have hc : ¬ c = '.' := fun hc => h (hc ▸ List.mem_cons_self c cs)
    have ht : '.' ∉ cs := fun ht => h (List.mem_cons_of_mem c ht)
    unfold splitDot
    simp only [hc, if_false, ih ht]

theorem splitDot_append (a r : List Char) (h : '.' ∉ a) :
    splitDot (a ++ '.' :: r) = a :: splitDot r := by
  induction a with
  | nil => simp [splitDot]
  | cons c a ih =>
    have hc : ¬ c = '.' := fun hc => h (hc ▸ List.mem_cons_self c a)
    have ht : '.' ∉ a := fun ht => h (List.mem_cons_of_mem c ht)
    rw [List.cons_append]
    simp only [splitDot, hc, if_false, ih ht]

/-- C3 counterexample: on major component 1a2 the claim's parser (strip only
leading non-digits) fails, since 1a2 starts with a digit and is not a number;
the code filters ALL non-digit characters out of the major component, so the
code parses 1a2.0.0 successfully to (12, 0, 0). -/
theorem c3_counterexample :
    Version.from_str "1a2.0.0" = some ⟨12, 0, 0⟩
    ∧ claimParse "1a2.0.0".data = none := by
  exact ⟨rfl, rfl⟩

/-- C3 (amended): split on dots; with fewer than three components the result
is (0,0,0); otherwise ALL non-digit characters are removed from the major
component before integer parsing (so v2.3.4 parses to (2,3,4)), and a parse
failure on any numeric field is an error. -/
theorem c3_version_parsing :
    (∀ a b c : List Char, '.' ∉ a → '.' ∉ b → '.' ∉ c →
      Version.from_str_chars (a ++ '.' :: (b ++ '.' :: c)) =
        match parseU32 (a.filter Char.isDigit), parseU32 b, parseU32 c with
        | some x, some y, some z => some ⟨x, y, z⟩
        | _, _, _ => none)
    ∧ Version.from_str "v2.3.4" = some ⟨2, 3, 4⟩
    ∧ (∀ cs : List Char, (splitDot cs).length < 3 →
        Version.from_str_chars cs = some ⟨0, 0, 0⟩) := by
  refine ⟨?_, rfl, ?_⟩
  · intro a b c ha hb hc
    unfold Version.from_str_chars
    rw [splitDot_append a _ ha, splitDot_append b _ hb, splitDot_no_dot c hc]
  · intro cs hlen
    unfold Version.from_str_chars
    cases hs : splitDot cs with
    | nil => rfl
    | cons x t =>
      cases t with
      | nil => rfl
      | cons y t2 =>
        cases t2 with
        | nil => rfl
        | cons z t3 =>
          rw [hs] at hlen
          simp at hlen
          omega

/-- C3 witness: the amended characterization applied at the concrete split
v2 dot 3 dot 4, and the fewer-than-three-components rule at 1.2. -/
theorem c3_version_parsing_witness :
    Version.from_str_chars (['v', '2'] ++ '.' :: (['3'] ++ '.' :: ['4'])) = some ⟨2, 3, 4⟩
    ∧ Version.from_str_chars ['1', '.', '2'] = some ⟨0, 0, 0⟩ := by
  constructor
  · exact (c3_version_parsing.1 ['v', '2'] ['3'] ['4'] (by decide) (by decide) (by decide)).trans
      (by decide)
  · exact c3_version_parsing.2.2 ['1', '.', '2'] (by decide)

/-- The derived Ord on Version (src/lib.rs line 191): lexicographic
comparison of the fields in declaration order, major then minor then patch. -/
def Version.cmp (a b : Version) : Ordering :=
  match compare a.major b.major with
  | Ordering.eq =>
    match compare a.minor b.minor with
    | Ordering.eq => compare a.patch b.patch
    | o => o
  | o => o

theorem Version.cmp_eq_lt (a b : Version) :
    Version.cmp a b = Ordering.lt ↔
      a.major < b.major
      ∨ (a.major = b.major ∧ (a.minor < b.minor
        ∨ (a.minor = b.minor ∧ a.patch < b.patch))) := by
  unfold Version.cmp
  rcases h1 : compare a.major b.major with _ | _ | _
  · have hm := Nat.compare_eq_lt.mp h1
    simp [hm]
  · have e1 := Nat.compare_eq_eq.mp h1
    rcases h2 : compare a.minor b.minor with _ | _ | _
    · have hm := Nat.compare_eq_lt.mp h2
      simp [hm, e1]
    · have e2 := Nat.compare_eq_eq.mp h2
      rw [Nat.compare_eq_lt]
      omega
    · have hm := Nat.compare_eq_gt.mp h2
      constructor
      · intro hx; exact absurd hx (by simp)
      · intro hx; exfalso; omega
  · have hm := Nat.compare_eq_gt.mp h1
    constructor
    · intro hx; exact absurd hx (by simp)
    · intro hx; exfalso; omega

theorem Version.cmp_eq_eq (a b : Version) :
    Version.cmp a b = Ordering.eq ↔ a = b := by
  unfold Version.cmp
  rcases h1 : compare a.major b.major with _ | _ | _
  · have := Nat.compare_eq_lt.mp h1
    constructor
    · intro hx; exact absurd hx (by simp)
    · intro hx; rw [hx] at this; omega
  · have e1 := Nat.compare_eq_eq.mp h1
    rcases h2 : compare a.minor b.minor with _ | _ | _
    · have := Nat.compare_eq_lt.mp h2
      constructor
      · intro hx; exact absurd hx (by simp)
      · intro hx; rw [hx] at this; omega
    · have e2 := Nat.compare_eq_eq.mp h2
      rw [Nat.compare_eq_eq]
      cases a; cases b
      simp_all
    · have := Nat.compare_eq_gt.mp h2
      constructor
      · intro hx; exact absurd hx (by simp)
      · intro hx; rw [hx] at this; omega
  · have := Nat.compare_eq_gt.mp h1
    constructor
    · intro hx; exact absurd hx (by simp)
    · intro hx; rw [hx] at this; omega

/-- C8: the derived ordering on Version is a total order (transitive, total,
with equality reflexive and agreeing with the triple), the parsed chain
0.0.1 < 0.1.0 < 1.0.0 < 1.1.1 holds, and strings parsing to equal triples
compare equal regardless of formatting: 01.2.3 and 1.2.3 parse to the same
Version. -/
theorem c8_version_total_order :
    (∀ a b c : Version, Version.cmp a b = Ordering.lt → Version.cmp b c = Ordering.lt →
      Version.cmp a c = Ordering.lt)
    ∧ (∀ a b : Version, Version.cmp a b = Ordering.eq ↔ a = b)
    ∧ (∀ a b : Version,
        Version.cmp a b = Ordering.lt ∨ Version.cmp a b = Ordering.eq
        ∨ Version.cmp b a = Ordering.lt)
    ∧ (∀ a : Version, Version.cmp a a = Ordering.eq)
    ∧ (Version.from_str "0.0.1" = some ⟨0, 0, 1⟩
      ∧ Version.from_str "0.1.0" = some ⟨0, 1, 0⟩
      ∧ Version.from_str "1.0.0" = some ⟨1, 0, 0⟩
      ∧ Version.from_str "1.1.1" = some ⟨1, 1, 1⟩
      ∧ Version.cmp ⟨0, 0, 1⟩ ⟨0, 1, 0⟩ = Ordering.lt
      ∧ Version.cmp ⟨0, 1, 0⟩ ⟨1, 0, 0⟩ = Ordering.lt
      ∧ Version.cmp ⟨1, 0, 0⟩ ⟨1, 1, 1⟩ = Ordering.lt)
    ∧ (Version.from_str "01.2.3" = Version.from_str "1.2.3"
      ∧ Version.from_str "1.2.3" = some ⟨1, 2, 3⟩) := by
  refine ⟨?_, Version.cmp_eq_eq, ?_, ?_, ⟨rfl, rfl, rfl, rfl, rfl, rfl, rfl⟩, rfl, rfl⟩
  · intro a b c hab hbc
    rw [Version.cmp_eq_lt] at hab hbc ⊢
    omega
  · intro a b
    rw [Version.cmp_eq_lt, Version.cmp_eq_eq, Version.cmp_eq_lt]
    rcases a with ⟨a1, a2, a3⟩
    rcases b with ⟨b1, b2, b3⟩
    simp only [Version.mk.injEq]
    omega
  · intro a
    rw [Version.cmp_eq_eq]

/-- C8 witness: transitivity applied at a concrete chain of versions. -/
theorem c8_version_total_order_witness :
    Version.cmp ⟨0, 0, 1⟩ ⟨1, 1, 1⟩ = Ordering.lt := by
  exact c8_version_total_order.1 ⟨0, 0, 1⟩ ⟨0, 1, 0⟩ ⟨1, 1, 1⟩ (by decide) (by decide)

/-- One XML tag event as produced by quick_xml while the reader scans the
manifest: a self-closing (Empty) element with its name and well-formed
attributes, a read error (read_event returning Err, which the code turns into
a failed search via ok()?), or any other event (Start, End, Text, ...), all
of which the code ignores. -/
inductive XmlEvent where
  | empty (name : String) (attrs : List (String × String)) : XmlEvent
  | malformed : XmlEvent
  | other : XmlEvent
deriving DecidableEq

/-- First attribute with the given key, as the attribute for-loop does. -/
def lookupAttr (key : String) : List (String × String) → Option String
  | [] => none
  | (k, v) :: rest => if k = key then some v else lookupAttr key rest

/-- TheiaPluginLCL::search_version (src/lib.rs lines 127-147): scan the event
stream in order; stop at end of document (returning nothing), at a read error
(ok()? returns nothing), or at the FIRST self-closing Identity element, whose
first Version attribute is returned; if that element has no Version attribute
the loop breaks and nothing is returned. -/
def TheiaPluginLCL.search_version : List XmlEvent → Option String
  | [] => none
  | XmlEvent.malformed :: _ => none
  | XmlEvent.empty n attrs :: rest =>
    if n = "Identity" then lookupAttr "Version" attrs
    else TheiaPluginLCL.search_version rest
  | XmlEvent.other :: rest => TheiaPluginLCL.search_version rest

/-- Whether an event is a self-closing Identity element. -/
def isIdentityEmpty : XmlEvent → Bool
  | XmlEvent.empty n _ => n = "Identity"
  | _ => false

/-- Outcome of reading install_dir/name/extension.vsixmanifest, with the XML
reader treated as the capability producing the event stream: the file was
read (events), the file or its directory is absent (io::ErrorKind NotFound),
or the file exists but reading failed for another io reason. -/
inductive ReadOutcome where
  | found (events : List XmlEvent)
  | absent
  | ioFault
deriving DecidableEq

/-- TheiaPluginLCL::get_version (src/lib.rs lines 115-126): ANY read failure
(including file-not-found) is mapped by map_err into an error string; on a
successful read the event stream is scanned and a missing version is the
"not find version" error; the found string is then version-parsed. -/
def TheiaPluginLCL.get_version (r : ReadOutcome) : Except String Version :=
  match r with
  | ReadOutcome.absent => Except.error "read vsixmanifest"
  | ReadOutcome.ioFault => Except.error "read vsixmanifest"
  | ReadOutcome.found events =>
    match TheiaPluginLCL.search_version events with
    | none => Except.error "not find version"
    | some s =>
      match Version.from_str s with
      | none => Except.error "version error"
      | some v => Except.ok v

/-- C2: the installed-version reader applied to an absent manifest file. The
code maps the io NotFound error into an error outcome exactly like any other
read failure, instead of the not-installed outcome; the caller in
src/main.rs (fn upgrade, lines 91-97) matches the successful result against
Some/None and treats an error as a failed unit, so a never-installed plugin
can not take the install path. -/
theorem c2_absent_manifest_is_error :
    TheiaPluginLCL.get_version ReadOutcome.absent = Except.error "read vsixmanifest" := by
  exact rfl

/-- C5: scanning stops at the first self-closing Identity element or at end
of document: on a stream with no read errors the result is exactly the first
Version attribute of the first such element (nothing when the document has no
such element, and nothing when the first matched element lacks a Version
attribute, even if a later Identity element has one); whenever the scan
returns nothing, get_version surfaces the manifest-format error rather than
a version. -/
theorem c5_manifest_scan :
    (∀ events : List XmlEvent, XmlEvent.malformed ∉ events →
      TheiaPluginLCL.search_version events =
        match events.find? isIdentityEmpty with
        | some (XmlEvent.empty _ attrs) => lookupAttr "Version" attrs
        | _ => none)
    ∧ (∀ events : List XmlEvent,
        TheiaPluginLCL.search_version events = none →
        TheiaPluginLCL.get_version (ReadOutcome.found events) =
          Except.error "not find version") := by
  constructor
  · intro events hm
    induction events with
    | nil => rfl
    | cons ev rest ih =>
      have hm1 : ev ≠ XmlEvent.malformed := fun he => hm (he ▸ List.mem_cons_self ev rest)
      have hm2 : XmlEvent.malformed ∉ rest := fun ht => hm (List.mem_cons_of_mem ev ht)
      cases ev with
      | malformed => exact absurd rfl hm1
      | other =>
        rw [List.find?_cons_of_neg _ (by simp [isIdentityEmpty])]
        exact ih hm2
      | empty n attrs =>
        by_cases hn : n = "Identity"
        · rw [List.find?_cons_of_pos _ (by simp [isIdentityEmpty, hn])]
          simp [TheiaPluginLCL.search_version, hn]
        · rw [List.find?_cons_of_neg _ (by simp [isIdentityEmpty, hn])]
          simp only [TheiaPluginLCL.search_version, hn, if_false]
          exact ih hm2
  · intro events hnone
    simp only [TheiaPluginLCL.get_version, hnone]

/-- C5 witness: a stream whose first Identity element lacks a Version
attribute makes the scan stop there and the reader fail, although a later
Identity element does carry a Version attribute. -/
theorem c5_manifest_scan_witness :
    TheiaPluginLCL.get_version (ReadOutcome.found
      [XmlEvent.other,
       XmlEvent.empty "Identity" [("Id", "a")],
       XmlEvent.empty "Identity" [("Version", "1.2.3")]]) =
      Except.error "not find version" := by
  refine c5_manifest_scan.2 _ ?_
  exact (c5_manifest_scan.1
    [XmlEvent.other,
     XmlEvent.empty "Identity" [("Id", "a")],
     XmlEvent.empty "Identity" [("Version", "1.2.3")]] (by decide)).trans (by decide)

/-- Terminal states of one (registry, plugin name) unit of fn upgrade in
src/main.rs: skipped (latest already installed), installed (download and
install ran and succeeded), failed (any step failed; the unit only logs and
returns). -/
inductive Outcome where
  | skipped
  | installed
  | failed
deriving DecidableEq

/-- Result of a unit together with whether the download step was reached. -/
structure RunResult where
  outcome : Outcome
  downloadAttempted : Bool
deriving DecidableEq

/-- fn upgrade (src/main.rs lines 90-117): read the installed version (an
error ends the unit as failed), resolve the latest version and download url
(an error ends the unit as failed), then: an installed version equal to the
latest is logged and the unit ends as skipped with no download; otherwise
(an installed version different from the latest, or no installed version)
the archive is downloaded and installed, failure of that step failing the
unit. The download-and-install step is the capability argument. -/
def upgrade (installed : Except String (Option Version))
    (latest : Except String (Version × String))
    (fetchInstall : String → Except String Unit) : RunResult :=
  match installed with
  | Except.error _ => ⟨Outcome.failed, false⟩
  | Except.ok version_old =>
    match latest with
    | Except.error _ => ⟨Outcome.failed, false⟩
    | Except.ok (version_new, download) =>
      match version_old with
      | some v =>
        if v = version_new then ⟨Outcome.skipped, false⟩
        else
          match fetchInstall download with
          | Except.ok _ => ⟨Outcome.installed, true⟩
          | Except.error _ => ⟨Outcome.failed, true⟩
      | none =>
        match fetchInstall download with
        | Except.ok _ => ⟨Outcome.installed, true⟩
        | Except.error _ => ⟨Outcome.failed, true⟩

/-- C4: when the installed version exists and equals the resolved latest
version the unit is skipped and no download is attempted; when the installed
version merely differs from the latest (in any direction, including
numerically greater) the download step is reached and the unit ends as
installed or failed according to the download-and-install outcome. -/
theorem c4_skip_policy :
    (∀ (version_old version_new : Version) (url : String)
      (dl : String → Except String Unit),
      version_old = version_new →
      upgrade (Except.ok (some version_old)) (Except.ok (version_new, url)) dl =
        ⟨Outcome.skipped, false⟩)
    ∧ (∀ (version_old version_new : Version) (url : String)
        (dl : String → Except String Unit),
        version_old ≠ version_new →
        (upgrade (Except.ok (some version_old)) (Except.ok (version_new, url)) dl).downloadAttempted
            = true
        ∧ (dl url = Except.ok () →
            upgrade (Except.ok (some version_old)) (Except.ok (version_new, url)) dl =
              ⟨Outcome.installed, true⟩)) := by
  constructor
  · intro vo vn url dl h
    simp [upgrade, h]
  · intro vo vn url dl h
    constructor
    · unfold upgrade
      simp only [h, if_false]
      cases dl url <;> rfl
    · intro hdl
      unfold upgrade
      simp only [h, if_false, hdl]

/-- C4 witness: an equal installed version is skipped without download, and
an installed version numerically greater than the latest still reaches the
download step and installs. -/
theorem c4_skip_policy_witness :
    upgrade (Except.ok (some ⟨1, 2, 3⟩)) (Except.ok (⟨1, 2, 3⟩, "u"))
        (fun _ => Except.ok ()) = ⟨Outcome.skipped, false⟩
    ∧ upgrade (Except.ok (some ⟨2, 0, 0⟩)) (Except.ok (⟨1, 0, 0⟩, "u"))
        (fun _ => Except.ok ()) = ⟨Outcome.installed, true⟩ := by
  constructor
  · exact c4_skip_policy.1 ⟨1, 2, 3⟩ ⟨1, 2, 3⟩ "u" (fun _ => Except.ok ()) rfl
  · exact (c4_skip_policy.2 ⟨2, 0, 0⟩ ⟨1, 0, 0⟩ "u" (fun _ => Except.ok ())
      (by decide)).2 rfl

/-- Outcome of one metadata GET, at the capability interface the code uses:
either the transport failed with an error message, or a response arrived with
an HTTP status, a declared content type, and a body whose JSON parse result
is given (none when the body is not valid JSON). -/
inductive HttpResp where
  | transportErr (msg : String)
  | ok (status : Nat) (contentType : String) (body : Option Json)

/-- TheiaPluginAPI::get_version with parse_json (src/lib.rs lines 67-82):
a transport error is surfaced as the error; otherwise the body bytes are
handed straight to the JSON parser and then to the two path walks and the
version parser. Neither the HTTP status nor the declared content type occurs
on any right-hand side: recv_bytes discards them and the code never inspects
them. -/
def TheiaPluginAPI.get_version (version_keys download_keys : List String)
    (resp : HttpResp) : Except String (Version × String) :=
  match resp with
  | HttpResp.transportErr m => Except.error m
  | HttpResp.ok _ _ none => Except.error "json parse"
  | HttpResp.ok _ _ (some json) =>
    match TheiaPluginAPI.search_version version_keys json with
    | none => Except.error "not find version"
    | some s =>
      match Version.from_str s with
      | none => Except.error "version error"
      | some v =>
        match TheiaPluginAPI.search_download download_keys json with
        | none => Except.error "not find download"
        | some d => Except.ok (v, d)

/-- C6 counterexample: a response with status 404 (not 2xx) and declared
content type text/html (not JSON) whose body happens to be valid JSON is
resolved successfully, where the claim demands a NetworkError for the status
and a ContentTypeError for the content type. -/
theorem c6_counterexample :
    TheiaPluginAPI.get_version ["v"] ["d"]
      (HttpResp.ok 404 "text/html"
        (some (Json.obj [("v", Json.str "1.2.3"), ("d", Json.str "http:u")]))) =
      Except.ok (⟨1, 2, 3⟩, "http:u") := by
  exact rfl

/-- C6 (amended): the resolver fails with the transport error on transport
failure, and otherwise never inspects the HTTP status or the declared content
type: the result is a function of the body alone, and a body that is not
valid JSON fails with the parse error. -/
theorem c6_resolver_errors :
    (∀ (vk dk : List String) (m : String),
      TheiaPluginAPI.get_version vk dk (HttpResp.transportErr m) = Except.error m)
    ∧ (∀ (vk dk : List String) (s1 s2 c1 c2 : Nat × String) (body : Option Json),
        TheiaPluginAPI.get_version vk dk (HttpResp.ok s1.1 c1.2 body) =
          TheiaPluginAPI.get_version vk dk (HttpResp.ok s2.1 c2.2 body))
    ∧ (∀ (vk dk : List String) (status : Nat) (ctype : String),
        TheiaPluginAPI.get_version vk dk (HttpResp.ok status ctype none) =
          Except.error "json parse") := by
  refine ⟨fun vk dk m => rfl, ?_, fun vk dk status ctype => rfl⟩
  intro vk dk s1 s2 c1 c2 body
  cases body <;> rfl

/-- One archive entry interaction during TheiaPluginLCL::savefile, with the
zip and filesystem calls as capabilities: whether is_file() holds, whether
create_dir_all on the parent succeeds, whether File::create succeeds, whether
io::copy succeeds, the entry's declared unix_mode, and whether
set_permissions succeeds. -/
structure ZEntry where
  is_file : Bool
  mkdirOk : Bool
  createOk : Bool
  writeOk : Bool
  unix_mode : Option Nat
  chmodOk : Bool
deriving DecidableEq

/-- One loop iteration of savefile: archive.by_index(i) either fails
(if-let falls through) or yields an entry. -/
inductive ZStep where
  | missing
  | entry (e : ZEntry)
deriving DecidableEq

/-- TheiaPluginLCL::savefile (src/lib.rs lines 160-188): iterate the steps in
archive order. A failed by_index is silently skipped. Directory entries are
skipped. For a file entry the parent-directory creation result is DISCARDED
(create_dir_all(x).ok() with the value unused: mkdirOk appears on no
right-hand side); a File::create failure aborts with the create error, an
io::copy failure aborts with the write error, and, when a unix mode is
declared, a set_permissions failure aborts with the permission error. -/
def TheiaPluginLCL.savefile : List ZStep → Except String Unit
  | [] => Except.ok ()
  | ZStep.missing :: rest => TheiaPluginLCL.savefile rest
  | ZStep.entry e :: rest =>
    if e.is_file then
      if e.createOk then
        if e.writeOk then
          match e.unix_mode with
          | some _ =>
            if e.chmodOk then TheiaPluginLCL.savefile rest
            else Except.error "set permission"
          | none => TheiaPluginLCL.savefile rest
        else Except.error "write file"
      else Except.error "create file"
    else TheiaPluginLCL.savefile rest

/-- TheiaPluginLCL::installing (src/lib.rs lines 149-159): run savefile and
wrap any error with the plugin's target directory path. -/
def TheiaPluginLCL.installing (target : String) (steps : List ZStep) : Except String Unit :=
  match TheiaPluginLCL.savefile steps with
  | Except.ok _ => Except.ok ()
  | Except.error e => Except.error (target ++ ": " ++ e)

/-- A step that cannot abort savefile: a skipped lookup, a directory entry,
or a file entry whose create, write and (when a mode is declared) chmod all
succeed. -/
def stepOk : ZStep → Bool
  | ZStep.missing => true
  | ZStep.entry e =>
    !e.is_file || (e.createOk && e.writeOk && (e.unix_mode.isNone || e.chmodOk))

theorem savefile_append_ok (pre rest : List ZStep) (h : pre.all stepOk = true) :
    TheiaPluginLCL.savefile (pre ++ rest) = TheiaPluginLCL.savefile rest := by
  induction pre with
  | nil => rfl
  | cons s pre ih =>
    rw [List.all_cons, Bool.and_eq_true] at h
    rw [List.cons_append]
    cases s with
    | missing => exact ih h.2
    | entry e =>
      rcases e with ⟨isf, mk, cr, wr, um, ch⟩
      have h1 := h.1
      have h2 := ih h.2
      simp only [stepOk] at h1
      cases isf <;> cases cr <;> cases wr <;> cases um <;> cases ch <;>
        simp_all [TheiaPluginLCL.savefile]

theorem savefile_skip_missing (pre post : List ZStep) :
    TheiaPluginLCL.savefile (pre ++ ZStep.missing :: post) =
      TheiaPluginLCL.savefile (pre ++ post) := by
  induction pre with
  | nil => rfl
  | cons s pre ih =>
    rw [List.cons_append, List.cons_append]
    cases s with
    | missing => exact ih
    | entry e =>
      rcases e with ⟨isf, mk, cr, wr, um, ch⟩
      cases isf <;> cases cr <;> cases wr <;> cases um <;> cases ch <;>
        simp [TheiaPluginLCL.savefile, ih]

theorem savefile_all_ok (steps : List ZStep) (h : steps.all stepOk = true) :
    TheiaPluginLCL.savefile steps = Except.ok () := by
  have := savefile_append_ok steps [] h
  simpa using this

/-- C7 counterexample: a file entry whose parent-directory creation fails but
whose create and write succeed is installed without any error: the
create_dir_all failure is discarded, not surfaced, so an io failure while
creating the parent directories does not abort the installation. -/
theorem c7_counterexample :
    TheiaPluginLCL.savefile [ZStep.entry ⟨true, false, true, true, none, true⟩] =
      Except.ok ()
    ∧ TheiaPluginLCL.installing "target" [ZStep.entry ⟨true, false, true, true, none, true⟩] =
      Except.ok () := by
  exact ⟨rfl, rfl⟩

/-- C7 (amended): the result of creating an entry's parent directories is
discarded and never aborts the installation by itself; a failure to create
or to write the destination file (the first one in archive order, after any
non-aborting steps) aborts that plugin's installation, and installing
surfaces the error wrapped with the plugin's target directory path. -/
theorem c7_io_error_propagation :
    (∀ (steps : List ZStep) (e : ZEntry) (rest : List ZStep),
      steps.all stepOk = true → e.is_file = true → e.createOk = false →
      TheiaPluginLCL.savefile (steps ++ ZStep.entry e :: rest) = Except.error "create file")
    ∧ (∀ (steps : List ZStep) (e : ZEntry) (rest : List ZStep),
        steps.all stepOk = true → e.is_file = true → e.createOk = true → e.writeOk = false →
        TheiaPluginLCL.savefile (steps ++ ZStep.entry e :: rest) = Except.error "write file")
    ∧ (∀ (target : String) (steps : List ZStep) (err : String),
        TheiaPluginLCL.savefile steps = Except.error err →
        TheiaPluginLCL.installing target steps = Except.error (target ++ ": " ++ err)) := by
  refine ⟨?_, ?_, ?_⟩
  · intro steps e rest hpre hf hcr
    rw [savefile_append_ok steps _ hpre]
    simp [TheiaPluginLCL.savefile, hf, hcr]
  · intro steps e rest hpre hf hcr hwr
    rw [savefile_append_ok steps _ hpre]
    simp [TheiaPluginLCL.savefile, hf, hcr, hwr]
  · intro target steps err h
    simp [TheiaPluginLCL.installing, h]

/-- C7 witness: after a skipped entry and a successful file entry, a file
entry whose File::create fails aborts the installation with the create
error; applied through installing, the error names the target directory. -/
theorem c7_io_error_propagation_witness :
    TheiaPluginLCL.installing "plugdir"
      [ZStep.missing, ZStep.entry ⟨true, true, true, true, none, true⟩,
       ZStep.entry ⟨true, true, false, true, none, true⟩] =
      Except.error ("plugdir" ++ ": " ++ "create file") := by
  refine c7_io_error_propagation.2.2 "plugdir" _ _ ?_
  exact c7_io_error_propagation.1
    [ZStep.missing, ZStep.entry ⟨true, true, true, true, none, true⟩]
    ⟨true, true, false, true, none, true⟩ [] (by decide) rfl rfl

/-- C10 counterexample: a file entry whose create and write both succeed but
whose declared unix mode fails to apply aborts the install with the
permission error, so create and write failures are not the only aborts. -/
theorem c10_counterexample :
    TheiaPluginLCL.savefile [ZStep.entry ⟨true, true, true, true, some 493, false⟩] =
      Except.error "set permission" := by
  exact rfl

/-- C10 (amended): an archive entry whose retrieval by index fails is skipped
silently: deleting such a step anywhere leaves the result unchanged, and an
archive all of whose remaining steps succeed returns success even though the
failed entry was never written; only failures of a file entry to create or
write the destination file, or to apply its declared unix permission mode,
abort the install. -/
theorem c10_missing_entry_skipped :
    (∀ pre post : List ZStep,
      TheiaPluginLCL.savefile (pre ++ ZStep.missing :: post) =
        TheiaPluginLCL.savefile (pre ++ post))
    ∧ (∀ steps : List ZStep, steps.all stepOk = true →
        TheiaPluginLCL.savefile steps = Except.ok ())
    ∧ TheiaPluginLCL.savefile [ZStep.missing] = Except.ok () := by
  exact ⟨savefile_skip_missing, savefile_all_ok, rfl⟩

/-- C10 witness: an archive whose first entry retrieval fails still installs
the remaining entries and returns success. -/
theorem c10_missing_entry_skipped_witness :
    TheiaPluginLCL.savefile
      [ZStep.missing, ZStep.entry ⟨true, true, true, true, some 493, true⟩] =
      Except.ok () := by
  exact c10_missing_entry_skipped.2.1
    [ZStep.missing, ZStep.entry ⟨true, true, true, true, some 493, true⟩] (by decide)
